import Mathlib

/-!
Verification of the two conversion scripts of the SwiftHablare repository:
`Scripts/convert_qwen_tts_coreml.py` and `Scripts/extract_speaker_embeddings.py`.

The scripts are straight-line glue over external libraries (torch, coremltools,
numpy, soundfile, qwen_tts).  We embed:

* the numeric constants and the `BUCKETS` table;
* the `validate` tolerance check (floats are modelled exactly as rationals;
  numpy's `np.sqrt` appears only through the comparison `rms < 1e-6`, which we
  state with `Real.sqrt` and discharge by monotonicity of the square root);
* the control flow of each script's `main` as a function from its inputs
  (parsed arguments, directory contents) and oracles for the library calls
  (the validation outcome per bucket, the embedding produced per clip) to the
  sequence of externally visible events it performs (file writes, log
  warnings/errors, process exit).

Exceptions raised by the external libraries themselves (model download
failures, `torch.jit.trace` failures) abort a run with a traceback; the
embedded `main`s model the runs in which every library call returns, which is
the domain all the claims quantify over.
-/

namespace QwenConvert

/-- Constant `FRAME_RATE_HZ = 12` (convert_qwen_tts_coreml.py line 28). -/
def FRAME_RATE_HZ : Nat := 12

/-- Constant `SAMPLES_PER_FRAME = 1920` (line 29). -/
def SAMPLES_PER_FRAME : Nat := 1920

/-- Constant `SAMPLE_RATE = 24000` (line 30). -/
def SAMPLE_RATE : Nat := 24000

/-- Constant `NUM_CODEBOOKS = 16` (line 31). -/
def NUM_CODEBOOKS : Nat := 16

/-- The `BUCKETS` dict literal (lines 33-38): duration in seconds ↦ frame
count `T`. -/
def BUCKETS : List (Nat × Nat) := [(3, 38), (10, 125), (30, 375), (45, 563)]

/-- Dict lookup `BUCKETS.get(dur)` (line 217). -/
def bucketsGet (dur : Nat) : Option Nat :=
  (BUCKETS.find? (fun p => p.1 == dur)).map (fun p => p.2)

/-- Lines 217-219: `T = BUCKETS.get(dur)`; `if T is None: T = dur * FRAME_RATE_HZ`. -/
def bucketFrames (dur : Nat) : Nat :=
  (bucketsGet dur).getD (dur * FRAME_RATE_HZ)

/-- The value `np.max(np.abs(pt_out - cm_out))` (line 156) over the flattened
`(1, 1, n)` arrays.  numpy's `max` has no initial element and raises on an
empty array; the `0` initial value below is only ever used for `n = 0`, a case
excluded by the `0 < T` hypotheses of the theorems. -/
def maxAbsDiff (xs ys : List ℚ) : ℚ :=
  ((xs.zip ys).map (fun p => |p.1 - p.2|)).foldl max 0

/-- The value `np.mean(cm_out ** 2)` (line 167, under the square root).  numpy yields
NaN on an empty array; here division by `0` yields `0`, a case excluded by the
`0 < T` hypotheses of the theorems. -/
def meanSq (xs : List ℚ) : ℚ :=
  (xs.map (fun x => x ^ 2)).sum / (xs.length : ℚ)

/-- The body of `validate` (lines 128-173), on the flattened model outputs.
`none` models an `AssertionError` from the shape checks of lines 148-153;
`some b` models the function returning the boolean `b`.
The source computes `rms = np.sqrt(np.mean(cm_out ** 2))` and tests
`rms < 1e-6`; since `√` is strictly monotone on the nonnegatives this is
equivalent to `np.mean(cm_out ** 2) < 1e-12`, which is how the test is
embedded (the equivalence with the `√` form is proved in `rms_lt_iff`).
The default tolerance of the source is `0.01`. -/
def validate (pt_out cm_out : List ℚ) (T : Nat) (tolerance : ℚ) : Option Bool :=
  let expected_samples := T * SAMPLES_PER_FRAME
  if pt_out.length ≠ expected_samples then none
  else if cm_out.length ≠ expected_samples then none
  else if maxAbsDiff pt_out cm_out > tolerance then some false
  else if meanSq cm_out < 1 / 1000000000000 then some false
  else some true

theorem meanSq_nonneg (xs : List ℚ) : 0 ≤ meanSq xs := by
  unfold meanSq
  apply div_nonneg
  · apply List.sum_nonneg
    intro x hx
    rcases List.mem_map.mp hx with ⟨y, _, rfl⟩
    positivity
  · exact Nat.cast_nonneg _

/-- The test `rms < 1e-6` at line 168 is the same test as `meanSq < 1e-12`. -/
theorem rms_lt_iff (xs : List ℚ) :
    Real.sqrt ((meanSq xs : ℚ) : ℝ) < 1 / 1000000 ↔
      meanSq xs < 1 / 1000000000000 := by
  rw [Real.sqrt_lt' (by norm_num)]
  constructor
  · intro h
    have : ((meanSq xs : ℚ) : ℝ) < ((1 / 1000000000000 : ℚ) : ℝ) := by
      calc ((meanSq xs : ℚ) : ℝ) < (1 / 1000000) ^ 2 := h
        _ = ((1 / 1000000000000 : ℚ) : ℝ) := by norm_num
    exact_mod_cast this
  · intro h
    have : ((meanSq xs : ℚ) : ℝ) < ((1 / 1000000000000 : ℚ) : ℝ) := by exact_mod_cast h
    calc ((meanSq xs : ℚ) : ℝ) < ((1 / 1000000000000 : ℚ) : ℝ) := this
      _ = (1 / 1000000) ^ 2 := by norm_num

/-- C2: the validation step is a fixed-shape numeric tolerance check: on
outputs whose (flattened) length is `T * 1920`, `validate` returns `False`
exactly when `max |pt_out - cm_out| > 0.01` or the RMS of `cm_out` is below
`1e-6`, and `True` otherwise.  The hypothesis `0 < T` reflects that the model
outputs are nonempty (numpy raises on an empty `np.max`). -/
theorem validate_tolerance_check (pt_out cm_out : List ℚ) (T : Nat) (_hT : 0 < T)
    (h1 : pt_out.length = T * SAMPLES_PER_FRAME)
    (h2 : cm_out.length = T * SAMPLES_PER_FRAME) :
    (validate pt_out cm_out T (1 / 100) = some false ↔
      (maxAbsDiff pt_out cm_out > 1 / 100 ∨
        Real.sqrt ((meanSq cm_out : ℚ) : ℝ) < 1 / 1000000)) ∧
    (validate pt_out cm_out T (1 / 100) = some true ↔
      ¬(maxAbsDiff pt_out cm_out > 1 / 100 ∨
        Real.sqrt ((meanSq cm_out : ℚ) : ℝ) < 1 / 1000000)) := by
  have hrms := rms_lt_iff cm_out
  simp only [validate]
  rw [if_neg (not_not_intro h1), if_neg (not_not_intro h2)]
  by_cases hmax : maxAbsDiff pt_out cm_out > 1 / 100
  · rw [if_pos hmax]
    refine ⟨⟨fun _ => Or.inl hmax, fun _ => rfl⟩,
      ⟨fun h => absurd h (by simp), fun h => absurd (Or.inl hmax) h⟩⟩
  · rw [if_neg hmax]
    by_cases hmsq : meanSq cm_out < 1 / 1000000000000
    · rw [if_pos hmsq]
      refine ⟨⟨fun _ => Or.inr (hrms.mpr hmsq), fun _ => rfl⟩,
        ⟨fun h => absurd h (by simp), fun h => absurd (Or.inr (hrms.mpr hmsq)) h⟩⟩
    · rw [if_neg hmsq]
      refine ⟨⟨fun h => absurd h (by simp), fun h => ?_⟩, ⟨fun _ => ?_, fun _ => rfl⟩⟩
      · rcases h with h | h
        · exact absurd h hmax
        · exact absurd (hrms.mp h) hmsq
      · rintro (h | h)
        · exact absurd h hmax
        · exact absurd (hrms.mp h) hmsq

/-- The all-zero model output of the 1-frame bucket, flattened: used to
instantiate the `validate` theorems at a concrete input. -/
def zeros1920 : List ℚ := List.replicate 1920 0

theorem validate_tolerance_check_witness :
    (0 : Nat) < 1 ∧ zeros1920.length = 1 * SAMPLES_PER_FRAME ∧
    ((validate zeros1920 zeros1920 1 (1 / 100) = some false ↔
      (maxAbsDiff zeros1920 zeros1920 > 1 / 100 ∨
        Real.sqrt ((meanSq zeros1920 : ℚ) : ℝ) < 1 / 1000000)) ∧
    (validate zeros1920 zeros1920 1 (1 / 100) = some true ↔
      ¬(maxAbsDiff zeros1920 zeros1920 > 1 / 100 ∨
        Real.sqrt ((meanSq zeros1920 : ℚ) : ℝ) < 1 / 1000000))) := by
  have hlen : zeros1920.length = 1 * SAMPLES_PER_FRAME := by
    simp only [zeros1920]
    rw [List.length_replicate]
    decide
  exact ⟨Nat.one_pos, hlen,
    validate_tolerance_check zeros1920 zeros1920 1 Nat.one_pos hlen hlen⟩

/-- C7: when both (nonempty) model outputs have last dimension `T * 1920`,
neither shape assertion of `validate` fires, so `validate` returns a boolean
(`some _`) rather than raising. -/
theorem validate_no_assert (pt_out cm_out : List ℚ) (T : Nat) (tolerance : ℚ)
    (_hT : 0 < T)
    (h1 : pt_out.length = T * SAMPLES_PER_FRAME)
    (h2 : cm_out.length = T * SAMPLES_PER_FRAME) :
    (validate pt_out cm_out T tolerance).isSome = true := by
  simp only [validate, h1, h2]
  split
  · simp at *
  · split
    · rfl
    · split
      · rfl
      · rfl

theorem validate_no_assert_witness :
    (0 : Nat) < 1 ∧ zeros1920.length = 1 * SAMPLES_PER_FRAME ∧
    (validate zeros1920 zeros1920 1 (1 / 100)).isSome = true := by
  have hlen : zeros1920.length = 1 * SAMPLES_PER_FRAME := by
    simp only [zeros1920]
    rw [List.length_replicate]
    decide
  exact ⟨Nat.one_pos, hlen,
    validate_no_assert zeros1920 zeros1920 1 (1 / 100) Nat.one_pos hlen hlen⟩

/-- Tensor dtypes the claims track. -/
inductive DType
  | int32
  | int64
  | float32
deriving DecidableEq, Repr

/-- A tensor, abstracted to its dtype, shape, and flattened integer payload
(the decoder input `codes` is the only tensor whose dtype the claims track). -/
structure Tensor where
  dtype : DType
  shape : List Nat
  data : List Int
deriving DecidableEq, Repr

/-- Cast `codes.to(torch.int64)` (line 70): the widening cast keeps shape and
values and retags the dtype. -/
def Tensor.toInt64 (t : Tensor) : Tensor :=
  ⟨DType.int64, t.shape, t.data⟩

/-- Method `CodecDecoderWrapper.forward` (lines 63-71): cast the int32 `codes`
tensor to int64, then call the wrapped decoder.  The decoder itself lives in
the `qwen_tts` library and is abstract here. -/
def codecDecoderWrapperForward (decoder : Tensor → Tensor) (codes : Tensor) : Tensor :=
  decoder codes.toInt64

/-- One value of the per-bucket `metadata["buckets"][f"{dur}s"]` dict
(lines 238-243). -/
structure BucketMeta where
  frames : Nat
  output_samples : Nat
  duration_sec : ℚ
  file : String
deriving DecidableEq, Repr

/-- The `metadata` dict (lines 204-212, 238-243).  The JSON key `f"{dur}s"`
of the buckets sub-dict determines and is determined by `dur`, so buckets are
keyed here by `dur` itself. -/
structure Metadata where
  model : String
  component : String
  sample_rate : Nat
  frame_rate_hz : Nat
  samples_per_frame : Nat
  num_codebooks : Nat
  buckets : List (Nat × BucketMeta)
deriving DecidableEq, Repr

/-- Assignment `d[k] = v` on a Python dict represented as an association
list: replace in place if the key is present, else append. -/
def assocSet (k : Nat) (v : BucketMeta) : List (Nat × BucketMeta) → List (Nat × BucketMeta)
  | [] => [(k, v)]
  | kv :: rest => if kv.1 = k then (k, v) :: rest else kv :: assocSet k v rest

/-- Lookup `d[k]` on the same representation. -/
def assocGet (k : Nat) : List (Nat × BucketMeta) → Option BucketMeta
  | [] => none
  | kv :: rest => if kv.1 = k then some kv.2 else assocGet k rest

/-- Externally visible events of a `convert_qwen_tts_coreml.py` run. -/
inductive CEvent
  | traceEv (T : Nat)                      -- torch.jit.trace of the wrapper (line 227)
  | convertEv (T : Nat)                    -- ct.convert of the traced model (line 228)
  | validateEv (T : Nat) (passed : Bool)   -- the numeric validation (line 231)
  | saveEv (file : String)                 -- mlmodel.save (line 235)
  | writeMetaEv (meta : Metadata)          -- metadata.json write (line 247)
  | warnEv (msg : String)                  -- log.warning (line 251)
  | exitEv (code : Nat)                    -- sys.exit, or the normal return of main
deriving DecidableEq, Repr

/-- The name `f"qwen_tts_codec_decoder_{dur}s"` (line 222). -/
def bucketName (dur : Nat) : String :=
  "qwen_tts_codec_decoder_" ++ toString dur ++ "s"

/-- The `.mlpackage` file name of a bucket (line 223). -/
def mlFileName (dur : Nat) : String :=
  bucketName dur ++ ".mlpackage"

/-- The value stored into `metadata["buckets"]` for a bucket (lines 238-243). -/
def bucketEntry (dur : Nat) : BucketMeta :=
  ⟨bucketFrames dur, bucketFrames dur * SAMPLES_PER_FRAME,
    (bucketFrames dur : ℚ) / (FRAME_RATE_HZ : ℚ), mlFileName dur⟩

/-- The `for dur in bucket_durations` loop (lines 216-243): the events it
performs, the final `metadata["buckets"]` dict, and the final `all_passed`
flag.  `skip` is `args.skip_validation`; `passed i` is the boolean returned
by `validate` on the `i`-th loop iteration (`validate` draws fresh random
codes on every call, so its outcome is an oracle indexed by iteration). -/
def runBuckets (skip : Bool) (passed : Nat → Bool) :
    Nat → List (Nat × BucketMeta) → Bool → List Nat →
      List CEvent × List (Nat × BucketMeta) × Bool
  | _, acc, ok, [] => ([], acc, ok)
  | i, acc, ok, dur :: rest =>
    let T := bucketFrames dur
    let evs : List CEvent :=
      [CEvent.traceEv T, CEvent.convertEv T]
        ++ (if skip then [] else [CEvent.validateEv T (passed i)])
        ++ [CEvent.saveEv (mlFileName dur)]
    let out := runBuckets skip passed (i + 1) (assocSet dur (bucketEntry dur) acc)
      (ok && (skip || passed i)) rest
    (evs ++ out.1, out.2)

/-- The `metadata` dict of lines 204-212 with a given final buckets sub-dict. -/
def metadataFor (buckets : List (Nat × BucketMeta)) : Metadata :=
  ⟨"Qwen3-TTS-12Hz-1.7B-Base", "codec_decoder", SAMPLE_RATE, FRAME_RATE_HZ,
    SAMPLES_PER_FRAME, NUM_CODEBOOKS, buckets⟩

/-- Function `main` of convert_qwen_tts_coreml.py (lines 176-254) after argument
parsing and model loading: `durs` is the parsed `--buckets` list and `skip`
the `--skip-validation` flag.  Produces the run's event sequence; the normal
return of `main` is an exit with status 0, `sys.exit(1)` an exit with 1. -/
def convertMain (durs : List Nat) (skip : Bool) (passed : Nat → Bool) : List CEvent :=
  let out := runBuckets skip passed 0 [] true durs
  out.1 ++ [CEvent.writeMetaEv (metadataFor out.2.1)]
    ++ (if out.2.2 then [CEvent.exitEv 0]
        else [CEvent.warnEv "Some validations failed", CEvent.exitEv 1])

theorem assocGet_assocSet_self (k : Nat) (v : BucketMeta) (l : List (Nat × BucketMeta)) :
    assocGet k (assocSet k v l) = some v := by
  induction l with
  | nil => simp [assocSet, assocGet]
  | cons kv rest ih =>
    by_cases h : kv.1 = k
    · simp [assocSet, assocGet, h]
    · simp [assocSet, assocGet, h, ih]

theorem assocGet_assocSet_ne (k k' : Nat) (hne : k ≠ k') (v : BucketMeta)
    (l : List (Nat × BucketMeta)) :
    assocGet k (assocSet k' v l) = assocGet k l := by
  induction l with
  | nil => simp [assocSet, assocGet, Ne.symm hne]
  | cons kv rest ih =>
    by_cases h : kv.1 = k'
    · simp [assocSet, assocGet, h, Ne.symm hne]
    · simp only [assocSet, if_neg h]
      by_cases h2 : kv.1 = k
      · simp [assocGet, h2]
      · simp [assocGet, h2, ih]

/-- The final `all_passed` flag of the loop: the incoming flag conjoined
with every iteration's outcome (or `True` when validation is skipped). -/
theorem runBuckets_allPassed (skip : Bool) (passed : Nat → Bool) (l : List Nat) :
    ∀ (i : Nat) (acc : List (Nat × BucketMeta)) (ok : Bool),
      ((runBuckets skip passed i acc ok l).2.2 = true ↔
        (ok = true ∧ ∀ j, j < l.length → (skip || passed (i + j)) = true)) := by
  induction l with
  | nil =>
    intro i acc ok
    simp [runBuckets]
  | cons dur rest ih =>
    intro i acc ok
    simp only [runBuckets]
    rw [ih]
    rw [Bool.and_eq_true]
    constructor
    · rintro ⟨⟨hok, hcur⟩, hall⟩
      refine ⟨hok, fun j hj => ?_⟩
      cases j with
      | zero => simpa using hcur
      | succ k =>
        have := hall k (by simpa using Nat.lt_of_succ_lt_succ hj)
        simpa [Nat.add_assoc, Nat.add_comm 1 k] using this
    · rintro ⟨hok, hall⟩
      refine ⟨⟨hok, by simpa using hall 0 (Nat.succ_pos _)⟩, fun j hj => ?_⟩
      have := hall (j + 1) (by simpa using Nat.succ_lt_succ hj)
      simpa [Nat.add_assoc, Nat.add_comm 1 j] using this

/-- The final buckets dict does not depend on the validation outcomes, the
skip flag, the iteration counter, or the incoming `all_passed` flag. -/
theorem runBuckets_buckets_indep (skip skip' : Bool) (passed passed' : Nat → Bool)
    (l : List Nat) :
    ∀ (i i' : Nat) (acc : List (Nat × BucketMeta)) (ok ok' : Bool),
      (runBuckets skip passed i acc ok l).2.1 =
        (runBuckets skip' passed' i' acc ok' l).2.1 := by
  induction l with
  | nil => intros; simp [runBuckets]
  | cons dur rest ih =>
    intro i i' acc ok ok'
    simp only [runBuckets]
    exact ih _ _ _ _ _

/-- A key not in the remaining durations is left untouched by the loop. -/
theorem runBuckets_buckets_notMem (skip : Bool) (passed : Nat → Bool) (l : List Nat) :
    ∀ (i : Nat) (acc : List (Nat × BucketMeta)) (ok : Bool) (d : Nat), d ∉ l →
      assocGet d (runBuckets skip passed i acc ok l).2.1 = assocGet d acc := by
  induction l with
  | nil => intros; simp [runBuckets]
  | cons dur rest ih =>
    intro i acc ok d hd
    have hne : d ≠ dur := fun h => hd (h ▸ List.mem_cons_self dur rest)
    have hdr : d ∉ rest := fun h => hd (List.mem_cons_of_mem dur h)
    simp only [runBuckets]
    rw [ih _ _ _ d hdr, assocGet_assocSet_ne d dur hne]

/-- Every requested duration ends up in the buckets dict with its entry. -/
theorem runBuckets_buckets_mem (skip : Bool) (passed : Nat → Bool) (l : List Nat) :
    ∀ (i : Nat) (acc : List (Nat × BucketMeta)) (ok : Bool) (d : Nat), d ∈ l →
      assocGet d (runBuckets skip passed i acc ok l).2.1 = some (bucketEntry d) := by
  induction l with
  | nil => intro _ _ _ _ h; exact absurd h (List.not_mem_nil _)
  | cons dur rest ih =>
    intro i acc ok d hd
    simp only [runBuckets]
    by_cases hdr : d ∈ rest
    · exact ih _ _ _ d hdr
    · have hdd : d = dur := by
        rcases List.mem_cons.mp hd with h | h
        · exact h
        · exact absurd h hdr
      subst hdd
      rw [runBuckets_buckets_notMem skip passed rest _ _ _ d hdr,
        assocGet_assocSet_self]

/-- Every requested duration's `.mlpackage` is saved by the loop. -/
theorem runBuckets_save_mem (skip : Bool) (passed : Nat → Bool) (l : List Nat) :
    ∀ (i : Nat) (acc : List (Nat × BucketMeta)) (ok : Bool) (d : Nat), d ∈ l →
      CEvent.saveEv (mlFileName d) ∈ (runBuckets skip passed i acc ok l).1 := by
  induction l with
  | nil => intro _ _ _ _ h; exact absurd h (List.not_mem_nil _)
  | cons dur rest ih =>
    intro i acc ok d hd
    simp only [runBuckets]
    rcases List.mem_cons.mp hd with h | h
    · subst h
      apply List.mem_append_left
      simp
    · exact List.mem_append_right _ (ih _ _ _ d h)

/-- Claim-side description of the per-bucket work (for C3): trace the
wrapper, convert, optionally validate, then serialize to
`qwen_tts_codec_decoder_{dur}s.mlpackage`. -/
def bucketBlockSpec (skip : Bool) (passed : Nat → Bool) (i dur : Nat) : List CEvent :=
  [CEvent.traceEv (bucketFrames dur), CEvent.convertEv (bucketFrames dur)]
    ++ (if skip then [] else [CEvent.validateEv (bucketFrames dur) (passed i)])
    ++ [CEvent.saveEv ("qwen_tts_codec_decoder_" ++ toString dur ++ "s" ++ ".mlpackage")]

/-- Claim-side description of the whole loop's event stream, in listed order. -/
def blocksSpec (skip : Bool) (passed : Nat → Bool) : Nat → List Nat → List CEvent
  | _, [] => []
  | i, dur :: rest => bucketBlockSpec skip passed i dur ++ blocksSpec skip passed (i + 1) rest

theorem runBuckets_events (skip : Bool) (passed : Nat → Bool) (l : List Nat) :
    ∀ (i : Nat) (acc : List (Nat × BucketMeta)) (ok : Bool),
      (runBuckets skip passed i acc ok l).1 = blocksSpec skip passed i l := by
  induction l with
  | nil => intros; simp [runBuckets, blocksSpec]
  | cons dur rest ih =>
    intro i acc ok
    simp only [runBuckets, blocksSpec, bucketBlockSpec, mlFileName, bucketName]
    rw [ih]

/-- If some iteration's validation fails (with validation enabled), the loop's
final `all_passed` flag is `False`. -/
theorem runBuckets_allPassed_false (passed : Nat → Bool) (durs : List Nat)
    (hfail : ∃ i, i < durs.length ∧ passed i = false) :
    (runBuckets false passed 0 [] true durs).2.2 = false := by
  rcases hfail with ⟨i, hi, hip⟩
  cases hap : (runBuckets false passed 0 [] true durs).2.2 with
  | false => rfl
  | true =>
    have h' := (runBuckets_allPassed false passed durs 0 [] true).mp hap
    have hj := h'.2 i hi
    simp [hip] at hj

/-- C1: with validation enabled, every run in which some bucket's validation
returns failure logs a warning and terminates with exit status 1; a run in
which every bucket's validation passes terminates with exit status 0. -/
theorem validation_exit_status (durs : List Nat) (passed : Nat → Bool) :
    ((∃ i, i < durs.length ∧ passed i = false) →
      ∃ pre, convertMain durs false passed =
        pre ++ [CEvent.warnEv "Some validations failed", CEvent.exitEv 1])
    ∧ ((∀ i, i < durs.length → passed i = true) →
      ∃ pre, convertMain durs false passed = pre ++ [CEvent.exitEv 0]) := by
  constructor
  · intro hfail
    have hap := runBuckets_allPassed_false passed durs hfail
    refine ⟨(runBuckets false passed 0 [] true durs).1 ++
      [CEvent.writeMetaEv (metadataFor (runBuckets false passed 0 [] true durs).2.1)], ?_⟩
    simp [convertMain, hap, List.append_assoc]
  · intro hpass
    have hap : (runBuckets false passed 0 [] true durs).2.2 = true :=
      (runBuckets_allPassed false passed durs 0 [] true).mpr
        ⟨rfl, fun j hj => by simp [hpass j hj]⟩
    refine ⟨(runBuckets false passed 0 [] true durs).1 ++
      [CEvent.writeMetaEv (metadataFor (runBuckets false passed 0 [] true durs).2.1)], ?_⟩
    simp [convertMain, hap, List.append_assoc]

theorem validation_exit_status_witness :
    (∃ pre, convertMain [3] false (fun _ => false) =
      pre ++ [CEvent.warnEv "Some validations failed", CEvent.exitEv 1])
    ∧ (∃ pre, convertMain [3] false (fun _ => true) = pre ++ [CEvent.exitEv 0]) :=
  ⟨(validation_exit_status [3] (fun _ => false)).1 ⟨0, by decide, rfl⟩,
   (validation_exit_status [3] (fun _ => true)).2 (fun _ _ => rfl)⟩

/-- C3: for every bucket duration in listed order, the script performs the
fixed sequence trace → convert → (validate unless skipped) → serialize to
`output_dir/qwen_tts_codec_decoder_{dur}s.mlpackage`, and after all buckets
it writes the metadata record; and the wrapper's forward pass calls the
decoder on the codes retagged as int64 with the same shape and values. -/
theorem convert_bucket_sequence (durs : List Nat) (skip : Bool) (passed : Nat → Bool)
    (decoder : Tensor → Tensor) (codes : Tensor) :
    codecDecoderWrapperForward decoder codes =
        decoder ⟨DType.int64, codes.shape, codes.data⟩
    ∧ ∃ m tail, convertMain durs skip passed =
        blocksSpec skip passed 0 durs ++ [CEvent.writeMetaEv m] ++ tail := by
  refine ⟨rfl,
    metadataFor (runBuckets skip passed 0 [] true durs).2.1,
    (if (runBuckets skip passed 0 [] true durs).2.2 then [CEvent.exitEv 0]
      else [CEvent.warnEv "Some validations failed", CEvent.exitEv 1]), ?_⟩
  simp only [convertMain]
  rw [runBuckets_events skip passed durs 0 [] true]

/-- C6: every completing run writes a metadata record whose per-bucket entry
for `dur` has `frames = T`, `output_samples = T * 1920`,
`duration_sec = T / 12` and `file = qwen_tts_codec_decoder_{dur}s.mlpackage`,
alongside the top-level constants 24000 / 12 / 1920 / 16. -/
theorem metadata_record (durs : List Nat) (skip : Bool) (passed : Nat → Bool)
    (dur : Nat) (hdur : dur ∈ durs) :
    ∃ pre tail m, convertMain durs skip passed = pre ++ [CEvent.writeMetaEv m] ++ tail
      ∧ m.sample_rate = 24000 ∧ m.frame_rate_hz = 12
      ∧ m.samples_per_frame = 1920 ∧ m.num_codebooks = 16
      ∧ assocGet dur m.buckets = some ⟨bucketFrames dur, bucketFrames dur * 1920,
          (bucketFrames dur : ℚ) / 12,
          "qwen_tts_codec_decoder_" ++ toString dur ++ "s" ++ ".mlpackage"⟩ := by
  refine ⟨(runBuckets skip passed 0 [] true durs).1,
    (if (runBuckets skip passed 0 [] true durs).2.2 then [CEvent.exitEv 0]
      else [CEvent.warnEv "Some validations failed", CEvent.exitEv 1]),
    metadataFor (runBuckets skip passed 0 [] true durs).2.1,
    rfl, rfl, rfl, rfl, rfl, ?_⟩
  simp only [metadataFor]
  rw [runBuckets_buckets_mem skip passed durs 0 [] true dur hdur]
  simp [bucketEntry, SAMPLES_PER_FRAME, FRAME_RATE_HZ, mlFileName, bucketName]

theorem metadata_record_witness :
    (3 : Nat) ∈ [3, 10] ∧
    (∃ pre tail m, convertMain [3, 10] true (fun _ => true) =
        pre ++ [CEvent.writeMetaEv m] ++ tail
      ∧ m.sample_rate = 24000 ∧ m.frame_rate_hz = 12
      ∧ m.samples_per_frame = 1920 ∧ m.num_codebooks = 16
      ∧ assocGet 3 m.buckets = some ⟨bucketFrames 3, bucketFrames 3 * 1920,
          (bucketFrames 3 : ℚ) / 12,
          "qwen_tts_codec_decoder_" ++ toString (3 : Nat) ++ "s" ++ ".mlpackage"⟩) :=
  ⟨by decide, metadata_record [3, 10] true (fun _ => true) 3 (by decide)⟩

/-- C9: a run in which some bucket's validation fails is not atomic: every
bucket's `.mlpackage` (including the failing one) and the metadata record are
written before the exit with status 1, and the metadata value is the one a
fully passing run over the same buckets writes. -/
theorem failure_not_atomic (durs : List Nat) (passed : Nat → Bool)
    (hfail : ∃ i, i < durs.length ∧ passed i = false) :
    ∃ pre m, convertMain durs false passed =
        pre ++ [CEvent.warnEv "Some validations failed", CEvent.exitEv 1]
      ∧ (∀ dur ∈ durs, CEvent.saveEv (mlFileName dur) ∈ pre)
      ∧ CEvent.writeMetaEv m ∈ pre
      ∧ CEvent.writeMetaEv m ∈ convertMain durs false (fun _ => true) := by
  have hap := runBuckets_allPassed_false passed durs hfail
  refine ⟨(runBuckets false passed 0 [] true durs).1 ++
      [CEvent.writeMetaEv (metadataFor (runBuckets false passed 0 [] true durs).2.1)],
    metadataFor (runBuckets false passed 0 [] true durs).2.1, ?_, ?_, ?_, ?_⟩
  · simp [convertMain, hap, List.append_assoc]
  · intro dur hdur
    exact List.mem_append_left _ (runBuckets_save_mem false passed durs 0 [] true dur hdur)
  · exact List.mem_append_right _ (by simp)
  · have hb := runBuckets_buckets_indep false false passed (fun _ => true) durs 0 0 [] true true
    simp only [convertMain]
    rw [hb]
    simp

theorem failure_not_atomic_witness :
    ∃ pre m, convertMain [3] false (fun _ => false) =
        pre ++ [CEvent.warnEv "Some validations failed", CEvent.exitEv 1]
      ∧ (∀ dur ∈ [3], CEvent.saveEv (mlFileName dur) ∈ pre)
      ∧ CEvent.writeMetaEv m ∈ pre
      ∧ CEvent.writeMetaEv m ∈ convertMain [3] false (fun _ => true) :=
  failure_not_atomic [3] (fun _ => false) ⟨0, by decide, rfl⟩

/-- C8: the frame count for a bucket comes from the fixed table for the
durations 3, 10, 30, 45 and is `dur * 12` otherwise; for the tabulated
durations the recorded `duration_sec = T / 12` differs from the requested
duration. -/
theorem bucket_frames_table (dur : Nat) (hdur : dur ∉ [3, 10, 30, 45]) :
    bucketFrames 3 = 38 ∧ bucketFrames 10 = 125 ∧ bucketFrames 30 = 375 ∧
    bucketFrames 45 = 563 ∧ bucketFrames dur = dur * 12 ∧
    (bucketEntry 3).duration_sec ≠ 3 ∧ (bucketEntry 10).duration_sec ≠ 10 ∧
    (bucketEntry 30).duration_sec ≠ 30 ∧ (bucketEntry 45).duration_sec ≠ 45 := by
  have hne : dur ≠ 3 ∧ dur ≠ 10 ∧ dur ≠ 30 ∧ dur ≠ 45 := by
    simp only [List.mem_cons, List.not_mem_nil, or_false] at hdur
    push_neg at hdur
    exact hdur
  have e3 : bucketFrames 3 = 38 := by decide
  have e10 : bucketFrames 10 = 125 := by decide
  have e30 : bucketFrames 30 = 375 := by decide
  have e45 : bucketFrames 45 = 563 := by decide
  refine ⟨e3, e10, e30, e45, ?_, ?_, ?_, ?_, ?_⟩
  · have b3 : ((3 : Nat) == dur) = false := beq_eq_false_iff_ne.mpr (Ne.symm hne.1)
    have b10 : ((10 : Nat) == dur) = false := beq_eq_false_iff_ne.mpr (Ne.symm hne.2.1)
    have b30 : ((30 : Nat) == dur) = false := beq_eq_false_iff_ne.mpr (Ne.symm hne.2.2.1)
    have b45 : ((45 : Nat) == dur) = false := beq_eq_false_iff_ne.mpr (Ne.symm hne.2.2.2)
    simp [bucketFrames, bucketsGet, BUCKETS, FRAME_RATE_HZ, List.find?,
      b3, b10, b30, b45]
  · norm_num [bucketEntry, e3, FRAME_RATE_HZ]
  · norm_num [bucketEntry, e10, FRAME_RATE_HZ]
  · norm_num [bucketEntry, e30, FRAME_RATE_HZ]
  · norm_num [bucketEntry, e45, FRAME_RATE_HZ]

theorem bucket_frames_table_witness :
    (5 : Nat) ∉ [3, 10, 30, 45] ∧
    (bucketFrames 3 = 38 ∧ bucketFrames 10 = 125 ∧ bucketFrames 30 = 375 ∧
    bucketFrames 45 = 563 ∧ bucketFrames 5 = 5 * 12 ∧
    (bucketEntry 3).duration_sec ≠ 3 ∧ (bucketEntry 10).duration_sec ≠ 10 ∧
    (bucketEntry 30).duration_sec ≠ 30 ∧ (bucketEntry 45).duration_sec ≠ 45) :=
  ⟨by decide, bucket_frames_table 5 (by decide)⟩

end QwenConvert

namespace SpeakerExtract

/-- A `.wav` file of the clips directory together with the contents of its
matching `.txt` transcript when that file exists (extract_speaker_embeddings.py
lines 95-111).  The wav file name is `stem ++ ".wav"`, the transcript file
`stem ++ ".txt"`. -/
structure Clip where
  stem : String
  transcript : Option String
deriving DecidableEq, Repr

/-- The `wav_path.name` of a clip. -/
def Clip.filename (c : Clip) : String := c.stem ++ ".wav"

/-- Python's `str.strip()` (line 111): drop leading and trailing whitespace.
(`String.trim` of the Lean core library does not reduce in the kernel, so the
same function is written out on the character list.) -/
def pyStrip (s : String) : String :=
  String.mk (((s.data.dropWhile Char.isWhitespace).reverse.dropWhile
    Char.isWhitespace).reverse)

/-- Code-point lexicographic order on character lists: the order in which
Python's `sorted()` ranks the globbed wav paths (line 95). -/
def lexLe : List Char → List Char → Bool
  | [], _ => true
  | _ :: _, [] => false
  | a :: as, b :: bs =>
    if a.toNat < b.toNat then true
    else if b.toNat < a.toNat then false
    else lexLe as bs

/-- Comparison of two clips by wav file name. -/
def fileLe (c d : Clip) : Bool := lexLe c.filename.data d.filename.data

/-- The sort `sorted(clips_dir.glob("*.wav"))` (line 95).  Python's `sorted` is a
stable sort by path name, and any two stable sorts with the same comparator
produce the same output, so it is modelled by insertion sort. -/
def sortClips (clips : List Clip) : List Clip :=
  List.insertionSort (fun c d => fileLe c d = true) clips

/-- The transcript check of lines 107-114: `none` when the `.txt` file is
missing or its stripped contents are empty, otherwise the stripped
transcript. -/
def usableTranscript (c : Clip) : Option String :=
  match c.transcript with
  | none => none
  | some raw => if pyStrip raw = "" then none else some (pyStrip raw)

/-- One entry of the `voices` catalog (lines 131-138). -/
structure VoiceEntry where
  name : String
  embedding_file : String
  reference_audio : String
  transcript : String
  embedding_shape : List Nat
  embedding_dtype : String
deriving DecidableEq, Repr

/-- Shape and dtype of the embedding array the qwen_tts model produces for a
clip: the oracle for `extract_embedding` (lines 45-63). -/
structure EmbInfo where
  shape : List Nat
  dtype : String
deriving DecidableEq, Repr

/-- Externally visible events of an `extract_speaker_embeddings.py` run.
File writes are identified by the clip stem: `saveNpy s` writes
`output_dir/{s}.npy` (line 121) and `copyWav s` copies `{s}.wav` into the
output directory (line 129). -/
inductive EEvent
  | errorEv (msg : String)                    -- log.error
  | warnEv (msg : String)                     -- log.warning
  | saveNpy (stem : String)                   -- np.save of the embedding
  | copyWav (stem : String)                   -- shutil.copy2 of the wav
  | writeCatalog (entries : List VoiceEntry)  -- voices.json write (line 142)
  | exitEv (code : Nat)                       -- SystemExit, or normal return
deriving DecidableEq, Repr

/-- The catalog entry appended for a processed clip (lines 131-138),
given its stripped transcript. -/
def mkEntry (emb : String → EmbInfo) (c : Clip) (transcript : String) : VoiceEntry :=
  ⟨c.stem, c.stem ++ ".npy", c.filename, transcript,
    (emb c.stem).shape, (emb c.stem).dtype⟩

/-- One iteration of the `for wav_path in wav_files` loop (lines 103-138):
the events it performs and the catalog entry it appends, if any.  `sameDir`
is true when the output directory is the clips directory, in which case the
wav copy of lines 127-129 is a no-op. -/
def clipStep (emb : String → EmbInfo) (sameDir : Bool) (c : Clip) :
    List EEvent × Option VoiceEntry :=
  match c.transcript with
  | none =>
    ([EEvent.warnEv ("Skipping " ++ c.filename ++ " — no matching .txt transcript found.")],
      none)
  | some raw =>
    if pyStrip raw = "" then
      ([EEvent.warnEv ("Skipping " ++ c.filename ++ " — transcript is empty.")], none)
    else
      ([EEvent.saveNpy c.stem] ++ (if sameDir then [] else [EEvent.copyWav c.stem]),
        some (mkEntry emb c (pyStrip raw)))

/-- The per-clip results of the loop, in sorted order. -/
def stepsOf (emb : String → EmbInfo) (sameDir : Bool) (clips : List Clip) :
    List (List EEvent × Option VoiceEntry) :=
  (sortClips clips).map (clipStep emb sameDir)

/-- The final `voices` catalog list (accumulated at line 131). -/
def voicesOf (emb : String → EmbInfo) (sameDir : Bool) (clips : List Clip) :
    List VoiceEntry :=
  (stepsOf emb sameDir clips).filterMap Prod.snd

/-- All events of the loop, in order. -/
def loopEvents (emb : String → EmbInfo) (sameDir : Bool) (clips : List Clip) :
    List EEvent :=
  ((stepsOf emb sameDir clips).map Prod.fst).flatten

/-- Function `main` of extract_speaker_embeddings.py (lines 66-149) after argument
parsing: `dirExists` is `clips_dir.is_dir()`, `clips` the `.wav` files of the
clips directory (in arbitrary glob order) with their transcripts, `emb` the
embedding oracle, `sameDir` whether the output directory equals the clips
directory.  `raise SystemExit(1)` is an exit with status 1; the normal return
of `main` is an exit with status 0. -/
def extractMain (dirExists : Bool) (clips : List Clip) (emb : String → EmbInfo)
    (sameDir : Bool) : List EEvent :=
  if !dirExists then
    [EEvent.errorEv "Clips directory not found", EEvent.exitEv 1]
  else if (sortClips clips).isEmpty then
    [EEvent.errorEv "No .wav files found", EEvent.exitEv 1]
  else
    loopEvents emb sameDir clips
      ++ [EEvent.writeCatalog (voicesOf emb sameDir clips)]
      ++ (if (voicesOf emb sameDir clips).isEmpty then
            [EEvent.warnEv "No voices were processed", EEvent.exitEv 1]
          else [EEvent.exitEv 0])

theorem lexLe_total : ∀ (a b : List Char), lexLe a b = true ∨ lexLe b a = true := by
  intro a
  induction a with
  | nil => intro b; left; rfl
  | cons x xs ih =>
    intro b
    cases b with
    | nil => right; rfl
    | cons y ys =>
      by_cases h1 : x.toNat < y.toNat
      · left
        simp [lexLe, h1]
      · by_cases h2 : y.toNat < x.toNat
        · right
          simp [lexLe, h1, h2]
        · rcases ih ys with h | h
          · left
            simp [lexLe, h1, h2, h]
          · right
            simp [lexLe, h1, h2, h]

theorem lexLe_trans : ∀ (a b c : List Char),
    lexLe a b = true → lexLe b c = true → lexLe a c = true := by
  intro a
  induction a with
  | nil => intros; rfl
  | cons x xs ih =>
    intro b c hab hbc
    cases b with
    | nil => simp [lexLe] at hab
    | cons y ys =>
      cases c with
      | nil => simp [lexLe] at hbc
      | cons z zs =>
        simp only [lexLe] at hab hbc ⊢
        by_cases hxy : x.toNat < y.toNat
        · by_cases hyz : y.toNat < z.toNat
          · simp [Nat.lt_trans hxy hyz]
          · by_cases hzy : z.toNat < y.toNat
            · simp [hyz, hzy] at hbc
            · have hyeq : y.toNat = z.toNat := Nat.le_antisymm (Nat.not_lt.mp hzy) (Nat.not_lt.mp hyz)
              simp [hyeq ▸ hxy]
        · by_cases hyx : y.toNat < x.toNat
          · simp [hxy, hyx] at hab
          · have hxeq : x.toNat = y.toNat := Nat.le_antisymm (Nat.not_lt.mp hyx) (Nat.not_lt.mp hxy)
            simp only [hxy, if_false, hyx, if_false] at hab
            by_cases hyz : y.toNat < z.toNat
            · simp [hxeq ▸ hyz]
            · by_cases hzy : z.toNat < y.toNat
              · simp [hyz, hzy] at hbc
              · simp only [hyz, if_false, hzy, if_false] at hbc
                have hxz : ¬x.toNat < z.toNat := by omega
                have hzx : ¬z.toNat < x.toNat := by omega
                simp [hxz, hzx, ih ys zs hab hbc]

instance : IsTotal Clip (fun c d => fileLe c d = true) :=
  ⟨fun c d => lexLe_total c.filename.data d.filename.data⟩

instance : IsTrans Clip (fun c d => fileLe c d = true) :=
  ⟨fun _ _ _ => lexLe_trans _ _ _⟩

theorem sortClips_perm (clips : List Clip) : (sortClips clips).Perm clips :=
  List.perm_insertionSort _ clips

theorem sortClips_sorted (clips : List Clip) :
    List.Pairwise (fun c d => fileLe c d = true) (sortClips clips) :=
  List.sorted_insertionSort _ clips

theorem mem_sortClips (clips : List Clip) (c : Clip) :
    c ∈ sortClips clips ↔ c ∈ clips :=
  (sortClips_perm clips).mem_iff

theorem sortClips_isEmpty (clips : List Clip) :
    (sortClips clips).isEmpty = clips.isEmpty := by
  have hl := (sortClips_perm clips).length_eq
  rcases hs : sortClips clips with _ | ⟨d, ds⟩ <;>
    rcases hc : clips with _ | ⟨c, cs⟩ <;> simp_all

/-- The entry a clip contributes, reading the transcript off the clip. -/
def entryOf (emb : String → EmbInfo) (c : Clip) : VoiceEntry :=
  mkEntry emb c ((usableTranscript c).getD "")

theorem clipStep_snd (emb : String → EmbInfo) (sameDir : Bool) (c : Clip) :
    (clipStep emb sameDir c).2 = Option.map (mkEntry emb c) (usableTranscript c) := by
  rcases hc : c.transcript with _ | raw
  · simp [clipStep, usableTranscript, hc]
  · by_cases hp : pyStrip raw = "" <;> simp [clipStep, usableTranscript, hc, hp]

theorem saveNpy_mem_clipStep (emb : String → EmbInfo) (sameDir : Bool) (c : Clip)
    (s : String) :
    (EEvent.saveNpy s ∈ (clipStep emb sameDir c).1 ↔
      ((usableTranscript c).isSome = true ∧ s = c.stem)) := by
  rcases hc : c.transcript with _ | raw
  · simp [clipStep, usableTranscript, hc]
  · by_cases hp : pyStrip raw = ""
    · simp [clipStep, usableTranscript, hc, hp]
    · cases sameDir <;> simp [clipStep, usableTranscript, hc, hp]

theorem writeCatalog_not_mem_clipStep (emb : String → EmbInfo) (sameDir : Bool)
    (c : Clip) (vs : List VoiceEntry) :
    EEvent.writeCatalog vs ∉ (clipStep emb sameDir c).1 := by
  rcases hc : c.transcript with _ | raw
  · simp [clipStep, hc]
  · by_cases hp : pyStrip raw = ""
    · simp [clipStep, hc, hp]
    · cases sameDir <;> simp [clipStep, hc, hp]

theorem writeCatalog_not_mem_loopEvents (emb : String → EmbInfo) (sameDir : Bool)
    (clips : List Clip) (vs : List VoiceEntry) :
    EEvent.writeCatalog vs ∉ loopEvents emb sameDir clips := by
  intro h
  rw [loopEvents, List.mem_flatten] at h
  rcases h with ⟨evs, hevs, hmem⟩
  rcases List.mem_map.mp hevs with ⟨p, hp, rfl⟩
  rcases List.mem_map.mp hp with ⟨c, _, rfl⟩
  exact writeCatalog_not_mem_clipStep emb sameDir c vs hmem

/-- The only catalog a run writes is `voicesOf`. -/
theorem writeCatalog_mem_eq (dirExists : Bool) (clips : List Clip)
    (emb : String → EmbInfo) (sameDir : Bool) (vs : List VoiceEntry)
    (h : EEvent.writeCatalog vs ∈ extractMain dirExists clips emb sameDir) :
    vs = voicesOf emb sameDir clips := by
  cases dirExists with
  | false => simp [extractMain] at h
  | true =>
    by_cases hempty : (sortClips clips).isEmpty
    · simp [extractMain, hempty] at h
    · simp only [extractMain, hempty, Bool.not_true, if_false, Bool.false_eq_true] at h
      rcases List.mem_append.mp h with h1 | h2
      · rcases List.mem_append.mp h1 with h1 | h1
        · exact absurd h1 (writeCatalog_not_mem_loopEvents emb sameDir clips vs)
        · simpa using h1
      · by_cases hv : (voicesOf emb sameDir clips).isEmpty <;> simp [hv] at h2

theorem saveNpy_mem_loopEvents (emb : String → EmbInfo) (sameDir : Bool)
    (clips : List Clip) (s : String) :
    (EEvent.saveNpy s ∈ loopEvents emb sameDir clips ↔
      ∃ c ∈ clips, (usableTranscript c).isSome = true ∧ s = c.stem) := by
  rw [loopEvents, List.mem_flatten]
  constructor
  · rintro ⟨evs, hevs, hmem⟩
    rcases List.mem_map.mp hevs with ⟨p, hp, rfl⟩
    rcases List.mem_map.mp hp with ⟨c, hc, rfl⟩
    rcases (saveNpy_mem_clipStep emb sameDir c s).mp hmem with ⟨h1, h2⟩
    exact ⟨c, (mem_sortClips clips c).mp (by simpa [stepsOf] using hc), h1, h2⟩
  · rintro ⟨c, hc, h1, h2⟩
    refine ⟨(clipStep emb sameDir c).1, ?_, (saveNpy_mem_clipStep emb sameDir c s).mpr ⟨h1, h2⟩⟩
    have hc' : c ∈ sortClips clips := (mem_sortClips clips c).mpr hc
    rw [stepsOf]
    exact List.mem_map_of_mem _ (List.mem_map_of_mem _ hc')

theorem filterMap_clipStep (emb : String → EmbInfo) (sameDir : Bool) (l : List Clip) :
    (l.filterMap (fun d => (clipStep emb sameDir d).2)) =
      (l.filter (fun d => (usableTranscript d).isSome)).map (entryOf emb) := by
  induction l with
  | nil => rfl
  | cons d ds ih =>
    rw [List.filterMap_cons, List.filter_cons]
    rcases hd : usableTranscript d with _ | t
    · rw [clipStep_snd, hd]
      simp [hd, ih]
    · rw [clipStep_snd, hd]
      simp only [Option.map_some, Option.isSome_some, if_pos]
      rw [List.map_cons, ih]
      simp [entryOf, hd]

theorem voicesOf_eq (emb : String → EmbInfo) (sameDir : Bool) (clips : List Clip) :
    voicesOf emb sameDir clips =
      ((sortClips clips).filter (fun d => (usableTranscript d).isSome)).map (entryOf emb) := by
  rw [voicesOf, stepsOf, List.filterMap_map, ← filterMap_clipStep emb sameDir]
  rfl

/-- If no clip has a usable transcript the catalog ends up empty. -/
theorem voicesOf_eq_nil (emb : String → EmbInfo) (sameDir : Bool) (clips : List Clip)
    (hall : ∀ c ∈ clips, usableTranscript c = none) :
    voicesOf emb sameDir clips = [] := by
  rw [voicesOf_eq]
  have hf : (sortClips clips).filter (fun d => (usableTranscript d).isSome) = [] := by
    rw [List.filter_eq_nil_iff]
    intro d hd
    rw [hall d ((mem_sortClips clips d).mp hd)]
    simp
  rw [hf]
  rfl

/-- A two-clip directory: `a.wav` with transcript, `b.wav` without. -/
def clipsCE : List Clip := [⟨"a", some "hello"⟩, ⟨"b", none⟩]

/-- A concrete embedding oracle. -/
def embC : String → EmbInfo := fun _ => ⟨[1, 1024], "float32"⟩

/-- C4 as stated is false at a concrete input: in a run over a directory
where `b.wav` has no matching `.txt` transcript but `a.wav` does, the script
only warns about `b.wav`, writes the catalog for `a`, and terminates with
exit status 0, not a nonzero status. -/
theorem missing_transcript_exit0 :
    (Clip.mk "b" none) ∈ clipsCE ∧ (Clip.mk "b" none).transcript = none ∧
    extractMain true clipsCE embC false =
      [EEvent.saveNpy "a", EEvent.copyWav "a",
       EEvent.warnEv "Skipping b.wav — no matching .txt transcript found.",
       EEvent.writeCatalog [⟨"a", "a.npy", "a.wav", "hello", [1, 1024], "float32"⟩],
       EEvent.exitEv 0] ∧
    EEvent.exitEv 1 ∉ extractMain true clipsCE embC false := by
  refine ⟨by decide, rfl, by decide, by decide⟩

/-- C4 amended: the script prints an error/warning and exits with a nonzero
status when the clips directory does not exist, when it contains no `.wav`
file, or when no `.wav` file at all has a usable transcript; a `.wav` file
whose transcript is absent is otherwise only skipped with a warning. -/
theorem missing_file_exit (dirExists : Bool) (clips : List Clip)
    (emb : String → EmbInfo) (sameDir : Bool)
    (h : dirExists = false ∨ clips = [] ∨ ∀ c ∈ clips, usableTranscript c = none) :
    ∃ pre msg, extractMain dirExists clips emb sameDir = pre ++ [EEvent.exitEv 1] ∧
      (EEvent.errorEv msg ∈ extractMain dirExists clips emb sameDir ∨
        EEvent.warnEv msg ∈ extractMain dirExists clips emb sameDir) := by
  cases dirExists with
  | false =>
    refine ⟨[EEvent.errorEv "Clips directory not found"], "Clips directory not found",
      rfl, Or.inl ?_⟩
    simp [extractMain]
  | true =>
    by_cases hempty : (sortClips clips).isEmpty
    · refine ⟨[EEvent.errorEv "No .wav files found"], "No .wav files found", ?_, Or.inl ?_⟩
      · simp [extractMain, hempty]
      · simp [extractMain, hempty]
    · have hall : ∀ c ∈ clips, usableTranscript c = none := by
        rcases h with h | h | h
        · exact absurd h (by simp)
        · exfalso
          apply hempty
          subst h
          rw [sortClips_isEmpty]
          rfl
        · exact h
      have hv := voicesOf_eq_nil emb sameDir clips hall
      refine ⟨loopEvents emb sameDir clips ++
          [EEvent.writeCatalog [], EEvent.warnEv "No voices were processed"],
        "No voices were processed", ?_, Or.inr ?_⟩
      · simp [extractMain, hempty, hv, List.append_assoc]
      · simp [extractMain, hempty, hv]

theorem missing_file_exit_witness :
    (false = false ∨ ([] : List Clip) = [] ∨ ∀ c ∈ ([] : List Clip), usableTranscript c = none) ∧
    (∃ pre msg, extractMain false [] embC false = pre ++ [EEvent.exitEv 1] ∧
      (EEvent.errorEv msg ∈ extractMain false [] embC false ∨
        EEvent.warnEv msg ∈ extractMain false [] embC false)) :=
  ⟨Or.inl rfl, missing_file_exit false [] embC false (Or.inl rfl)⟩

/-- C5: every `.wav` with a matching nonempty stripped transcript yields the
`.npy` write for its stem and exactly one catalog entry recording name,
embedding file, reference audio file name, transcript, embedding shape and
dtype; a `.wav` without such a transcript yields no `.npy` write and no
catalog entry.  (`hnodup` states that the wav file names of a directory are
distinct.) -/
theorem voice_entries (clips : List Clip) (emb : String → EmbInfo) (sameDir : Bool)
    (hnodup : (clips.map Clip.stem).Nodup) (c : Clip) (hc : c ∈ clips) :
    (∀ t, usableTranscript c = some t →
      (EEvent.saveNpy c.stem ∈ extractMain true clips emb sameDir ∧
        ∀ vs, EEvent.writeCatalog vs ∈ extractMain true clips emb sameDir →
          (vs.countP (fun v => v.name == c.stem) = 1 ∧
            VoiceEntry.mk c.stem (c.stem ++ ".npy") c.filename t
              (emb c.stem).shape (emb c.stem).dtype ∈ vs)))
    ∧ (usableTranscript c = none →
      (EEvent.saveNpy c.stem ∉ extractMain true clips emb sameDir ∧
        ∀ vs, EEvent.writeCatalog vs ∈ extractMain true clips emb sameDir →
          vs.countP (fun v => v.name == c.stem) = 0)) := by
  have hney : (sortClips clips).isEmpty = false := by
    rw [sortClips_isEmpty]
    cases clips with
    | nil => cases hc
    | cons _ _ => rfl
  have htrace : extractMain true clips emb sameDir =
      loopEvents emb sameDir clips
        ++ [EEvent.writeCatalog (voicesOf emb sameDir clips)]
        ++ (if (voicesOf emb sameDir clips).isEmpty then
              [EEvent.warnEv "No voices were processed", EEvent.exitEv 1]
            else [EEvent.exitEv 0]) := by
    simp [extractMain, hney]
  have hsave : ∀ s : String, (EEvent.saveNpy s ∈ extractMain true clips emb sameDir ↔
      EEvent.saveNpy s ∈ loopEvents emb sameDir clips) := by
    intro s
    rw [htrace]
    by_cases hv : (voicesOf emb sameDir clips).isEmpty <;> simp [hv]
  have hinj : ∀ d ∈ clips, d.stem = c.stem → d = c := by
    intro d hd hds
    exact List.inj_on_of_nodup_map hnodup hd hc hds
  have hcnt : (voicesOf emb sameDir clips).countP (fun v => v.name == c.stem) =
      clips.countP (fun d => d.stem == c.stem && (usableTranscript d).isSome) := by
    rw [voicesOf_eq, List.countP_map]
    have hcomp : ((fun v : VoiceEntry => v.name == c.stem) ∘ entryOf emb) =
        fun d : Clip => d.stem == c.stem := rfl
    rw [hcomp, List.countP_filter]
    exact (sortClips_perm clips).countP_eq _
  constructor
  · intro t ht
    have hcmem : EEvent.saveNpy c.stem ∈ loopEvents emb sameDir clips :=
      (saveNpy_mem_loopEvents emb sameDir clips c.stem).mpr
        ⟨c, hc, by rw [ht]; rfl, rfl⟩
    refine ⟨(hsave c.stem).mpr hcmem, fun vs hvs => ?_⟩
    rw [writeCatalog_mem_eq true clips emb sameDir vs hvs]
    constructor
    · rw [hcnt]
      have hub : clips.countP (fun d => d.stem == c.stem && (usableTranscript d).isSome) ≤
          clips.countP (fun d => d.stem == c.stem) :=
        List.countP_mono_left (fun d _ hdd => by
          rw [Bool.and_eq_true] at hdd
          exact hdd.1)
      have hstem : clips.countP (fun d => d.stem == c.stem) ≤ 1 := by
        have h1 := List.nodup_iff_count_le_one.mp hnodup c.stem
        rw [List.count_eq_countP, List.countP_map] at h1
        exact h1
      have hlb : 0 < clips.countP (fun d => d.stem == c.stem && (usableTranscript d).isSome) :=
        List.countP_pos_iff.mpr ⟨c, hc, by rw [ht]; simp⟩
      omega
    · rw [voicesOf_eq]
      refine List.mem_map.mpr ⟨c, List.mem_filter.mpr
        ⟨(mem_sortClips clips c).mpr hc, by rw [ht]; rfl⟩, ?_⟩
      simp [entryOf, ht, mkEntry]
  · intro h0
    constructor
    · intro hmem
      rcases (saveNpy_mem_loopEvents emb sameDir clips c.stem).mp
        ((hsave c.stem).mp hmem) with ⟨d, hd, hsome, hds⟩
      rw [hinj d hd hds.symm, h0] at hsome
      cases hsome
    · intro vs hvs
      rw [writeCatalog_mem_eq true clips emb sameDir vs hvs, hcnt]
      rw [List.countP_eq_zero]
      intro d hd hdd
      rw [Bool.and_eq_true] at hdd
      rcases hdd with ⟨h1, h2⟩
      rw [hinj d hd (by simpa using h1), h0] at h2
      cases h2

theorem voice_entries_witness :
    (clipsCE.map Clip.stem).Nodup ∧ (Clip.mk "a" (some "hello")) ∈ clipsCE ∧
    ((∀ t, usableTranscript (Clip.mk "a" (some "hello")) = some t →
      (EEvent.saveNpy (Clip.mk "a" (some "hello")).stem ∈ extractMain true clipsCE embC false ∧
        ∀ vs, EEvent.writeCatalog vs ∈ extractMain true clipsCE embC false →
          (vs.countP (fun v => v.name == (Clip.mk "a" (some "hello")).stem) = 1 ∧
            VoiceEntry.mk (Clip.mk "a" (some "hello")).stem
              ((Clip.mk "a" (some "hello")).stem ++ ".npy")
              (Clip.mk "a" (some "hello")).filename t
              (embC (Clip.mk "a" (some "hello")).stem).shape
              (embC (Clip.mk "a" (some "hello")).stem).dtype ∈ vs)))
    ∧ (usableTranscript (Clip.mk "a" (some "hello")) = none →
      (EEvent.saveNpy (Clip.mk "a" (some "hello")).stem ∉ extractMain true clipsCE embC false ∧
        ∀ vs, EEvent.writeCatalog vs ∈ extractMain true clipsCE embC false →
          vs.countP (fun v => v.name == (Clip.mk "a" (some "hello")).stem) = 0))) :=
  ⟨by decide, by decide,
    voice_entries clipsCE embC false (by decide) (Clip.mk "a" (some "hello")) (by decide)⟩

/-- C10: the catalog write precedes the no-voices check: when no `.wav` has
a usable transcript an empty catalog is still written before the exit with
status 1; and in every run that reaches the loop, the catalog entries appear
in code-point lexicographic order of their reference wav file names. -/
theorem catalog_write_order (clips : List Clip) (emb : String → EmbInfo) (sameDir : Bool)
    (hne : clips ≠ []) :
    ((∀ c ∈ clips, usableTranscript c = none) →
      ∃ pre, extractMain true clips emb sameDir =
        pre ++ [EEvent.writeCatalog [], EEvent.warnEv "No voices were processed",
          EEvent.exitEv 1])
    ∧ (∀ vs, EEvent.writeCatalog vs ∈ extractMain true clips emb sameDir →
        List.Pairwise (fun v w : VoiceEntry =>
          lexLe v.reference_audio.data w.reference_audio.data = true) vs) := by
  have hney : (sortClips clips).isEmpty = false := by
    rw [sortClips_isEmpty]
    cases clips with
    | nil => exact absurd rfl hne
    | cons _ _ => rfl
  constructor
  · intro hall
    have hv := voicesOf_eq_nil emb sameDir clips hall
    refine ⟨loopEvents emb sameDir clips, ?_⟩
    simp [extractMain, hney, hv, List.append_assoc]
  · intro vs hvs
    rw [writeCatalog_mem_eq true clips emb sameDir vs hvs, voicesOf_eq,
      List.pairwise_map]
    exact List.Pairwise.sublist (List.filter_sublist _) (sortClips_sorted clips)

theorem catalog_write_order_witness :
    ([Clip.mk "b" none] ≠ []) ∧
    (((∀ c ∈ [Clip.mk "b" none], usableTranscript c = none) →
      ∃ pre, extractMain true [Clip.mk "b" none] embC false =
        pre ++ [EEvent.writeCatalog [], EEvent.warnEv "No voices were processed",
          EEvent.exitEv 1])
    ∧ (∀ vs, EEvent.writeCatalog vs ∈ extractMain true [Clip.mk "b" none] embC false →
        List.Pairwise (fun v w : VoiceEntry =>
          lexLe v.reference_audio.data w.reference_audio.data = true) vs)) :=
  ⟨by decide, catalog_write_order [Clip.mk "b" none] embC false (by decide)⟩

end SpeakerExtract
